import Mathlib

/-!
Shallow embedding of the garbage-collected heap of `src/src/GC`.

The repository contains two coexisting implementations of the `GC::Heap`
methods: `src/src/GC/heap.cpp` (here suffixed `V2`; its `collect` runs
mark, then `compact`, then deletes all freed descriptors) and
`src/src/GC/lib/heap.cpp` (suffixed `V1`; its `collect` runs mark with a
null upper stack bound, then `sweep`, then deletes all freed descriptors).
Both share the same `alloc` logic except for the arithmetic used for the
start address of a fresh bump allocation: `lib/heap.cpp` computes
`(uintptr_t *)m_heap + m_size` (scaling the offset by the word size),
while `heap.cpp` computes `(void *)m_heap + m_size` (byte arithmetic).

Addresses and sizes are modelled as `Nat` (byte units); the word size of
the platform (`sizeof(uintptr_t)`, the stride of the stack scan cursor)
is 8. Stack-frame addresses obtained from `__builtin_frame_address` are
parameters of the functions that use them.
-/

/-- Compile-time heap capacity, `#define HEAP_SIZE 240240240` in
`src/src/GC/include/heap.hpp`. -/
def HEAP_SIZE : Nat := 240240240

/-- Stride of the stack-scan cursor: `uintptr_t *start; start++` advances
by `sizeof(uintptr_t)` bytes on the 64-bit platform the code targets. -/
def wordSize : Nat := 8

/-- Chunk descriptor. Modelled from the spec: `chunk.hpp` is not under
`src/`; the spec (§3) and every use in `heap.cpp` give the fields
`{ start : address, size : bytes, marked : bool }` with `marked`
defaulting to `false` for a freshly constructed descriptor. -/
structure Chunk where
  start : Nat
  size : Nat
  marked : Bool
deriving Repr, DecidableEq

/-- State of the singleton `GC::Heap` (fields of `heap.hpp` that the
modelled methods touch): `m_heap` (arena base address), `m_size` (bump
offset), `m_allocated_chunks`, `m_freed_chunks`, and `m_stack_top` (the
topmost stack frame address recorded at `init`). -/
structure HeapState where
  heapBase : Nat
  msize : Nat
  allocated : List Chunk
  freed : List Chunk
  stackTop : Nat
deriving Repr, DecidableEq

/-- Heap state right after `init`: `m_size{0}` and empty chunk vectors,
per the member initializers in `heap.hpp`. -/
def freshState (base top : Nat) : HeapState :=
  { heapBase := base, msize := 0, allocated := [], freed := [], stackTop := top }

/-- Errors of `alloc`: the failed assertions `size > 0` ("Cannot alloc
less than 0B") and `m_size + size <= HEAP_SIZE` ("Out Of Memory"). -/
inductive GCError where
  | invalidRequest
  | outOfMemory
deriving Repr, DecidableEq

/-! ## Mark phase

`Heap::mark(uintptr_t *start, const uintptr_t *end, vector<Chunk*> work_list)`
is identical in both implementations.  Note two facts visible in the
source and reflected here: the inner loop compares the scan *cursor*
(`start`, a pointer value) against each chunk's extent — it never
dereferences the cursor to read a stack word — and after marking one
chunk it erases it from the work list and recurses with the cursor
repositioned to `chunk->start + chunk->size`, returning immediately
afterwards.  The chunk store (`m_allocated_chunks`) is represented as a
list and the work list as a list of indices into it, mirroring the
shared `Chunk*` pointers. -/

/-- Test of the inner-loop guard for work-list entry `i` at cursor
address `a`: `chunk->start <= start && start < chunk->start + chunk->size`
followed by `!chunk->marked`. -/
def hitsCursor (store : List Chunk) (a : Nat) (i : Nat) : Bool :=
  match store[i]? with
  | some c => decide (c.start ≤ a) && decide (a < c.start + c.size) && !c.marked
  | none => false

/-- Inner loop of `mark`: walk the work list in order; at the first entry
whose chunk contains the cursor address and is unmarked, return its store
index together with the work list with that entry erased. -/
def scanWl (store : List Chunk) (a : Nat) : List Nat → Option (Nat × List Nat)
  | [] => none
  | i :: rest =>
    if hitsCursor store a i then
      some (i, rest)
    else
      match scanWl store a rest with
      | some (k, rest2) => some (k, i :: rest2)
      | none => none

theorem scanWl_length {store : List Chunk} {a : Nat} :
    ∀ {wl : List Nat} {i : Nat} {wl2 : List Nat},
      scanWl store a wl = some (i, wl2) → wl2.length < wl.length := by
  intro wl
  induction wl with
  | nil => intro i wl2 h; simp [scanWl] at h
  | cons x rest ih =>
    intro i wl2 h
    simp only [scanWl] at h
    split at h
    · cases h
      simp
    · split at h
      · next k rest2 heq =>
        cases h
        simpa using Nat.succ_lt_succ (ih heq)
      · cases h

/-- Outer loop of `Heap::mark`: for the cursor `a` ranging over
`[a, stop)` in steps of one word, mark the first unmarked work-list chunk
whose extent contains the cursor address, erase it from the work list,
and restart the scan at `chunk->start + chunk->size` (the recursive call
followed by `return` in the source). Returns the updated chunk store. -/
def markAux (stop : Nat) (a : Nat) (wl : List Nat) (store : List Chunk) : List Chunk :=
  if h1 : a < stop then
    match h2 : scanWl store a wl with
    | some (i, wl2) =>
      match store[i]? with
      | some c => markAux stop (c.start + c.size) wl2 (store.set i { c with marked := true })
      | none => store
    | none => markAux stop (a + wordSize) wl store
  else store
termination_by (wl.length, stop - a)
decreasing_by
  · exact Prod.Lex.left _ _ (scanWl_length h2)
  · apply Prod.Lex.right
    simp only [wordSize]
    omega

theorem markAux_stop {stop a : Nat} {wl : List Nat} {store : List Chunk}
    (h : ¬ a < stop) : markAux stop a wl store = store := by
  rw [markAux]
  simp [h]

theorem markAux_found {stop a : Nat} {wl wl2 : List Nat} {store : List Chunk} {i : Nat}
    {c : Chunk} (h : a < stop) (h2 : scanWl store a wl = some (i, wl2))
    (h3 : store[i]? = some c) :
    markAux stop a wl store
      = markAux stop (c.start + c.size) wl2 (store.set i { c with marked := true }) := by
  rw [markAux, dif_pos h]
  split
  · next i2 wl22 heq =>
    rw [h2] at heq
    simp only [Option.some.injEq, Prod.mk.injEq] at heq
    obtain ⟨h5, h6⟩ := heq
    subst h5
    subst h6
    simp only [h3]
  · next heq =>
    rw [h2] at heq
    simp at heq

theorem markAux_miss {stop a : Nat} {wl : List Nat} {store : List Chunk}
    (h : a < stop) (h2 : scanWl store a wl = none) :
    markAux stop a wl store = markAux stop (a + wordSize) wl store := by
  rw [markAux, dif_pos h]
  split
  · next i2 wl22 heq =>
    rw [h2] at heq
    simp at heq
  · rfl

/-! ## Sweep phase (`lib/heap.cpp` only) -/

/-- Loop body of `Heap::sweep`: walk `m_allocated_chunks` front to back,
erasing each unmarked chunk and pushing it onto `m_freed_chunks`; marked
chunks are passed over unchanged (in particular their `marked` flag is
left set). Returns (remaining allocated, chunks moved to freed, in
encounter order). -/
def sweepLoop : List Chunk → List Chunk × List Chunk
  | [] => ([], [])
  | c :: rest =>
    let p := sweepLoop rest
    if c.marked then (c :: p.1, p.2) else (p.1, c :: p.2)

/-- `Heap::sweep` of `src/src/GC/lib/heap.cpp`. -/
def sweep (st : HeapState) : HeapState :=
  { st with
    allocated := (sweepLoop st.allocated).1
    freed := st.freed ++ (sweepLoop st.allocated).2 }

/-! ## Compaction (`heap.cpp` only) -/

/-- Sorting of `m_allocated_chunks` by `compareChunks` (ascending start
address), the `std::sort` call in `Heap::compact`, modelled as a stable
insertion sort. -/
def insertByStart (c : Chunk) : List Chunk → List Chunk
  | [] => [c]
  | d :: rest => if c.start ≤ d.start then c :: d :: rest else d :: insertByStart c rest

def sortByStart : List Chunk → List Chunk
  | [] => []
  | c :: rest => insertByStart c (sortByStart rest)

/-- Sliding loop of `Heap::compact`: walk the sorted chunks with a cursor
`heap_curr` starting at the arena base; each chunk's bytes are moved to
the cursor, its `start` is set to the cursor, and the cursor advances by
its size. (When `space->start == heap_curr` the source skips the
`memmove` and the store to `start`, which leaves the same descriptor.) -/
def slide (dst : Nat) : List Chunk → List Chunk
  | [] => []
  | c :: rest => { c with start := dst } :: slide (dst + c.size) rest

/-- `Heap::compact` of `src/src/GC/heap.cpp`. It does not touch
`m_size`. -/
def compact (st : HeapState) : HeapState :=
  { st with allocated := slide st.heapBase (sortByStart st.allocated) }

/-! ## Collect -/

/-- `Heap::collect` of `src/src/GC/lib/heap.cpp`: mark with
`stack_start = __builtin_frame_address(0)` (the parameter `frame0`) and
`stack_end = (uintptr_t *)0`, the work list being a copy of
`m_allocated_chunks`; then `sweep()`; then pop and `delete` every entry
of `m_freed_chunks`. -/
def collectV1 (frame0 : Nat) (st : HeapState) : HeapState :=
  let marked := markAux 0 frame0 (List.range st.allocated.length) st.allocated
  let st2 := sweep { st with allocated := marked }
  { st2 with freed := [] }

/-- `Heap::collect` of `src/src/GC/heap.cpp`: mark with
`stack_start = __builtin_frame_address(0)` and
`stack_end = __builtin_frame_address(10)` (parameters `frame0`,
`frame10`); then `compact()`; then pop and `delete` every entry of
`m_freed_chunks`. There is no sweep in this variant. -/
def collectV2 (frame0 frame10 : Nat) (st : HeapState) : HeapState :=
  let marked := markAux frame10 frame0 (List.range st.allocated.length) st.allocated
  let st2 := compact { st with allocated := marked }
  { st2 with freed := [] }

/-! ## Allocation

`Heap::alloc(size_t size)` is textually identical in the two files apart
from the fresh-chunk start arithmetic.  Order of operations in the
source: assert `size > 0`; if `m_size + size > HEAP_SIZE` run `collect()`
and assert `m_size + size <= HEAP_SIZE`; scan `m_freed_chunks` in index
order and reuse the first fitting chunk (splitting when strictly larger);
otherwise create a fresh chunk at the bump position and advance
`m_size`. -/

/-- Scan of `m_freed_chunks`: at the first chunk `cp` with
`cp->size > size`, a remainder descriptor
`{ start = cp->start + cp->size, size = cp->size - size }` is built, `cp`
is erased from the freed vector and the remainder pushed onto its back,
and `cp` itself (its `size` field untouched) is handed out; at the first
chunk with `cp->size == size`, `cp` is erased and handed out whole.
Returns the chunk handed out and the new freed vector. -/
def tryReuse (size : Nat) : List Chunk → Option (Chunk × List Chunk)
  | [] => none
  | c :: rest =>
    if size < c.size then
      some (c, rest ++ [{ start := c.start + c.size, size := c.size - size, marked := false }])
    else if c.size = size then
      some (c, rest)
    else
      match tryReuse size rest with
      | some (cp, rest2) => some (cp, c :: rest2)
      | none => none

/-- Successful tail of `alloc`: reuse from the freed list when possible,
else bump. `newStart` is the fresh-chunk start arithmetic of the variant.
Returns the address handed to the caller and the new state. -/
def allocGo (newStart : HeapState → Nat) (st : HeapState) (size : Nat) : Nat × HeapState :=
  match tryReuse size st.freed with
  | some (cp, freed2) =>
    (cp.start, { st with freed := freed2, allocated := st.allocated ++ [cp] })
  | none =>
    let s := newStart st
    (s, { st with
            msize := st.msize + size
            allocated := st.allocated ++ [{ start := s, size := size, marked := false }] })

/-- `Heap::alloc`, parametric in the `collect` implementation and the
fresh-chunk start arithmetic. The second component counts how many times
`collect()` ran during the call. A failed assertion is modelled as the
corresponding `GCError`. -/
def allocCore (collectFn : HeapState → HeapState) (newStart : HeapState → Nat)
    (st : HeapState) (size : Nat) : Except GCError (Nat × HeapState) × Nat :=
  if size = 0 then (.error .invalidRequest, 0)
  else if HEAP_SIZE < st.msize + size then
    let st1 := collectFn st
    if HEAP_SIZE < st1.msize + size then (.error .outOfMemory, 1)
    else (.ok (allocGo newStart st1 size), 1)
  else (.ok (allocGo newStart st size), 0)

/-- `Heap::alloc` of `src/src/GC/lib/heap.cpp`: the fresh start is
`(uintptr_t *)m_heap + m_size`, i.e. the byte address
`m_heap + wordSize * m_size`. -/
def allocV1 (frame0 : Nat) (st : HeapState) (size : Nat) :
    Except GCError (Nat × HeapState) × Nat :=
  allocCore (collectV1 frame0) (fun s => s.heapBase + wordSize * s.msize) st size

/-- `Heap::alloc` of `src/src/GC/heap.cpp`: the fresh start is
`(void *)m_heap + m_size`, i.e. the byte address `m_heap + m_size`. -/
def allocV2 (frame0 frame10 : Nat) (st : HeapState) (size : Nat) :
    Except GCError (Nat × HeapState) × Nat :=
  allocCore (collectV2 frame0 frame10) (fun s => s.heapBase + s.msize) st size

/-- Sequencing of `alloc` calls, threading the heap state; stops at the
first failure. Returns the addresses handed out, in order. -/
def allocSeq (allocFn : HeapState → Nat → Except GCError (Nat × HeapState) × Nat)
    (st : HeapState) : List Nat → Except GCError (List Nat × HeapState)
  | [] => .ok ([], st)
  | s :: rest =>
    match (allocFn st s).1 with
    | .ok (a, st2) =>
      match allocSeq allocFn st2 rest with
      | .ok (as2, st3) => .ok (a :: as2, st3)
      | .error e => .error e
    | .error e => .error e

/-- Addresses handed out by a run of pure bump allocations of the given
sizes starting at bump offset `m`: the i-th address is `base` plus the
sum of `m` and the sizes before position i. -/
def bumpAddrs (base m : Nat) : List Nat → List Nat
  | [] => []
  | s :: rest => (base + m) :: bumpAddrs base (m + s) rest

/-! ## Helper lemmas -/

@[simp]
theorem markAux_zero {a : Nat} {wl : List Nat} {store : List Chunk} :
    markAux 0 a wl store = store :=
  markAux_stop (Nat.not_lt_zero a)

@[simp]
theorem collectV1_msize {f : Nat} {st : HeapState} : (collectV1 f st).msize = st.msize := rfl

@[simp]
theorem collectV1_freed {f : Nat} {st : HeapState} : (collectV1 f st).freed = [] := rfl

@[simp]
theorem collectV2_msize {f g : Nat} {st : HeapState} : (collectV2 f g st).msize = st.msize := rfl

@[simp]
theorem collectV2_freed {f g : Nat} {st : HeapState} : (collectV2 f g st).freed = [] := rfl

theorem sweepLoop_eq_filter :
    ∀ l : List Chunk,
      sweepLoop l = (l.filter (fun c => c.marked), l.filter (fun c => !c.marked)) := by
  intro l
  induction l with
  | nil => rfl
  | cons c rest ih =>
    simp only [sweepLoop, ih, List.filter_cons]
    cases hm : c.marked <;> simp [hm]

/-! ## Claim theorems -/

/-- Heap state used for the C10 witness: bump offset already at
`HEAP_SIZE`, nothing allocated or freed. -/
def c10State : HeapState :=
  { heapBase := 0, msize := HEAP_SIZE, allocated := [], freed := [], stackTop := 0 }

/-- C10: both `collect` implementations leave `m_size` unchanged and
return with `m_freed_chunks` empty, so when `alloc` runs `collect`
because `m_size + size > HEAP_SIZE`, the post-collect capacity check
fails again and the call ends in the Out-Of-Memory assertion; the
collect-then-retry path never turns a failing bump-capacity check into a
success. -/
theorem collect_preserves_bump_and_oom :
    ∀ (f g size : Nat) (st : HeapState),
      ((collectV1 f st).msize = st.msize ∧ (collectV1 f st).freed = [])
    ∧ ((collectV2 f g st).msize = st.msize ∧ (collectV2 f g st).freed = [])
    ∧ (HEAP_SIZE < st.msize + size → size ≠ 0 →
        (allocV1 f st size).1 = .error .outOfMemory
      ∧ (allocV2 f g st size).1 = .error .outOfMemory) := by
  intro f g size st
  refine ⟨⟨rfl, rfl⟩, ⟨rfl, rfl⟩, ?_⟩
  intro h hs
  constructor
  · simp [allocV1, allocCore, hs, h]
  · simp [allocV2, allocCore, hs, h]

/-- Witness for `collect_preserves_bump_and_oom` at a concrete
over-capacity state. -/
theorem collect_preserves_bump_and_oom_w :
    ((collectV1 0 c10State).msize = c10State.msize ∧ (collectV1 0 c10State).freed = [])
  ∧ ((collectV2 0 0 c10State).msize = c10State.msize ∧ (collectV2 0 0 c10State).freed = [])
  ∧ ((allocV1 0 c10State 5).1 = .error .outOfMemory
   ∧ (allocV2 0 0 c10State 5).1 = .error .outOfMemory) := by
  have h := collect_preserves_bump_and_oom 0 0 5 c10State
  exact ⟨h.1, h.2.1, h.2.2 (by decide) (by decide)⟩

/-- C9: `alloc(0)` fails with the `size > 0` assertion (InvalidRequest)
in both implementations, and for every positive size that branch is not
taken. -/
theorem alloc_zero_invalid :
    ∀ (f g size : Nat) (st : HeapState),
      (allocV1 f st 0).1 = .error .invalidRequest
    ∧ (allocV2 f g st 0).1 = .error .invalidRequest
    ∧ (allocV1 f st (size + 1)).1 ≠ .error .invalidRequest
    ∧ (allocV2 f g st (size + 1)).1 ≠ .error .invalidRequest := by
  intro f g size st
  refine ⟨rfl, rfl, ?_, ?_⟩ <;>
  · simp only [allocV1, allocV2, allocCore, Nat.succ_ne_zero, if_false]
    split
    · split <;> simp
    · simp

/-- C4: neither `collect` consults the topmost-stack-frame address
`m_stack_top` recorded at `init`: the result of `collect` is the same
whatever value that field holds, and the upper scan bound of the
`lib/heap.cpp` variant is the null sentinel `(uintptr_t *)0`, under
which the scan loop `for (; start < end; start++)` does nothing at
all. -/
theorem collect_ignores_recorded_stack_top :
    ∀ (a f g t1 t2 : Nat) (wl : List Nat) (store : List Chunk) (st : HeapState),
      markAux 0 a wl store = store
    ∧ collectV1 f { st with stackTop := t1 }
        = { collectV1 f { st with stackTop := t2 } with stackTop := t1 }
    ∧ collectV2 f g { st with stackTop := t1 }
        = { collectV2 f g { st with stackTop := t2 } with stackTop := t1 } := by
  intro a f g t1 t2 wl store st
  exact ⟨markAux_zero, rfl, rfl⟩

/-- Heap state used for C5: one marked and one unmarked allocated
chunk. -/
def c5State : HeapState :=
  { heapBase := 0, msize := 12, allocated := [⟨0, 4, true⟩, ⟨4, 8, false⟩],
    freed := [], stackTop := 0 }

/-- C5: `sweep` moves every unmarked chunk to `m_freed_chunks` and
retains every marked chunk in `m_allocated_chunks`, but it never clears
the `marked` flag: a surviving chunk still carries `marked = true` after
sweep. -/
theorem sweep_keeps_mark_flag :
    (∀ st : HeapState,
        (sweep st).allocated = st.allocated.filter (fun c => c.marked)
      ∧ (sweep st).freed = st.freed ++ st.allocated.filter (fun c => !c.marked)
      ∧ (sweep st).msize = st.msize)
  ∧ sweep c5State = { c5State with allocated := [⟨0, 4, true⟩], freed := [⟨4, 8, false⟩] }
  ∧ (∃ c, c ∈ (sweep c5State).allocated ∧ c.marked = true) := by
  refine ⟨?_, by decide, ⟨⟨0, 4, true⟩, by decide, rfl⟩⟩
  intro st
  refine ⟨?_, ?_, rfl⟩
  · simp [sweep, sweepLoop_eq_filter]
  · simp [sweep, sweepLoop_eq_filter]

/-- Heap state used for C3: one freed chunk `{ start 100, size 10 }`,
strictly larger than the request of 4 bytes, so the splitting branch of
`alloc` runs. -/
def c3State : HeapState :=
  { heapBase := 0, msize := 20, allocated := [], freed := [⟨100, 10, false⟩], stackTop := 0 }

/-- C3: on the splitting reuse branch, both implementations hand the
reused descriptor to `m_allocated_chunks` with its `size` field still 10
(not the requested 4), and build the remainder at
`cp->start + cp->size = 110` with size `10 - 4 = 6` — not at
`c.start + size = 104`. The returned address is `c.start = 100`. -/
theorem alloc_split_wrong_remainder :
    (allocV2 0 0 c3State 4).1
      = .ok (100, { c3State with allocated := [⟨100, 10, false⟩], freed := [⟨110, 6, false⟩] })
  ∧ (allocV1 0 c3State 4).1
      = .ok (100, { c3State with allocated := [⟨100, 10, false⟩], freed := [⟨110, 6, false⟩] })
  ∧ (110 : Nat) ≠ 100 + 4
  ∧ (10 : Nat) ≠ 4 :=
  ⟨rfl, rfl, by decide, by decide⟩

/-- Heap state used for C8: one prior 1-byte bump allocation, so the
bump offset is 1. -/
def c8State : HeapState :=
  { heapBase := 0, msize := 1, allocated := [⟨0, 1, false⟩], freed := [], stackTop := 0 }

/-- C8: a fresh bump allocation in `lib/heap.cpp` computes its start as
`(uintptr_t *)m_heap + m_size`, i.e. `heapBase + wordSize * bump = 8`
here, while `heap.cpp` computes the byte address
`heapBase + bump = 1`; both advance the bump offset by exactly the
requested size. -/
theorem alloc_bump_scaled_by_word_size :
    (allocV1 0 c8State 1).1
      = .ok (8, { c8State with msize := 2, allocated := [⟨0, 1, false⟩, ⟨8, 1, false⟩] })
  ∧ (allocV2 0 0 c8State 1).1
      = .ok (1, { c8State with msize := 2, allocated := [⟨0, 1, false⟩, ⟨1, 1, false⟩] })
  ∧ (8 : Nat) ≠ 0 + 1 :=
  ⟨rfl, rfl, by decide⟩

/-- Heap state used for C1: one unmarked allocated chunk starting at
address 100; in the modelled scenario the stack range `[1000, 1016)`
holds the word 100 (the chunk's start), but `mark` never reads stack
words, so the memory contents play no role in the embedding. -/
def c1State : HeapState :=
  { heapBase := 0, msize := 8, allocated := [⟨100, 8, false⟩], freed := [], stackTop := 9000 }

/-- C1: a chunk whose start address is stored as a word in the scanned
stack range is not preserved. In `lib/heap.cpp`, `collect` scans
`[frame0, 0)` — an empty range — so nothing is marked, the chunk is
swept to `m_freed_chunks` and its descriptor deleted: `m_allocated_chunks`
ends empty. In the `heap.cpp` mark loop over the range `[1000, 1016)`,
the cursor addresses 1000 and 1008 are compared against the chunk's
extent `[100, 108)` and never dereferenced, so the chunk stays
unmarked even though (in the modelled scenario) the word at address 1000
is the chunk's start address 100. -/
theorem stack_witnessed_chunk_not_preserved :
    (collectV1 1000 c1State).allocated = []
  ∧ (collectV1 1000 c1State).freed = []
  ∧ markAux 1016 1000 [0] [⟨100, 8, false⟩] = [⟨100, 8, false⟩] := by
  refine ⟨?_, rfl, ?_⟩
  · simp [collectV1, sweep, sweepLoop, c1State]
  · rw [markAux_miss (by decide) (by rfl), markAux_miss (by decide) (by rfl)]
    exact markAux_stop (by decide)

/-- C2: the two 120120120-byte requests sum exactly to `HEAP_SIZE`, yet
the second address handed out by `lib/heap.cpp` is
`heapBase + wordSize * 120120120 = 960960960`, whose region extends far
beyond `heapBase + HEAP_SIZE`; `heap.cpp` hands out `heapBase + 120120120`
and both regions stay inside the arena. -/
theorem alloc_seq_escapes_arena :
    allocSeq (allocV1 0) (freshState 0 0) [120120120, 120120120]
      = .ok ([0, 960960960],
          { heapBase := 0, msize := 240240240,
            allocated := [⟨0, 120120120, false⟩, ⟨960960960, 120120120, false⟩],
            freed := [], stackTop := 0 })
  ∧ ¬ (960960960 + 120120120 ≤ 0 + HEAP_SIZE)
  ∧ allocSeq (allocV2 0 0) (freshState 0 0) [120120120, 120120120]
      = .ok ([0, 120120120],
          { heapBase := 0, msize := 240240240,
            allocated := [⟨0, 120120120, false⟩, ⟨120120120, 120120120, false⟩],
            freed := [], stackTop := 0 })
  ∧ 120120120 + 120120120 ≤ 0 + HEAP_SIZE :=
  ⟨rfl, by decide, rfl, by decide⟩

/-- Heap state used for C7: bump offset at capacity while
`m_freed_chunks` holds a 50-byte chunk — large enough for the 8-byte
request below. -/
def c7State : HeapState :=
  { heapBase := 0, msize := HEAP_SIZE, allocated := [], freed := [⟨0, 50, false⟩], stackTop := 0 }

/-- C7 counterexample: `alloc(8)` runs `collect()` even though a freed
chunk of sufficient size exists, because the capacity check in the
source tests only `m_size + size > HEAP_SIZE` and never consults
`m_freed_chunks`; the call then dies with Out-Of-Memory although the
request was satisfiable by reuse. -/
theorem alloc_collect_despite_freed_fit :
    (∃ c ∈ c7State.freed, 8 ≤ c.size)
  ∧ (allocV2 0 0 c7State 8).2 = 1
  ∧ (allocV1 0 c7State 8).2 = 1
  ∧ (allocV2 0 0 c7State 8).1 = .error .outOfMemory
  ∧ (allocV1 0 c7State 8).1 = .error .outOfMemory := by
  have h2 : (collectV2 0 0 c7State).msize = c7State.msize := rfl
  have h1 : (collectV1 0 c7State).msize = c7State.msize := rfl
  refine ⟨⟨⟨0, 50, false⟩, by simp [c7State], by decide⟩, ?_, ?_, ?_, ?_⟩ <;>
  · simp only [allocV2, allocV1, allocCore, h1, h2]
    rw [if_neg (by decide), if_pos (by decide), if_pos (by decide)]

/-- C7 amended: for either `collect` implementation and either bump
arithmetic, one `alloc` call runs `collect` at most once; it runs it
exactly when the size is valid and `m_size + size > HEAP_SIZE`
(irrespective of the contents of `m_freed_chunks`); and it fails with
Out-Of-Memory exactly when additionally the capacity check on the
post-collect state still fails. -/
theorem alloc_collect_at_most_once :
    ∀ (cf : HeapState → HeapState) (ns : HeapState → Nat) (st : HeapState) (size : Nat),
      (allocCore cf ns st size).2 ≤ 1
    ∧ ((allocCore cf ns st size).2 = 1 ↔ (size ≠ 0 ∧ HEAP_SIZE < st.msize + size))
    ∧ ((allocCore cf ns st size).1 = .error .outOfMemory
        ↔ (size ≠ 0 ∧ HEAP_SIZE < st.msize + size ∧ HEAP_SIZE < (cf st).msize + size)) := by
  intro cf ns st size
  unfold allocCore
  by_cases h0 : size = 0
  · simp [h0]
  · by_cases hcap : HEAP_SIZE < st.msize + size
    · by_cases hcap2 : HEAP_SIZE < (cf st).msize + size
      · simp [h0, hcap, hcap2]
      · simp [h0, hcap, hcap2]
    · simp [h0, hcap]

/-! ## Lemmas about the compaction slide -/

theorem slide_mem_lb :
    ∀ (l : List Chunk) (d : Nat) (c : Chunk), c ∈ slide d l → d ≤ c.start := by
  intro l
  induction l with
  | nil => intro d c h; simp [slide] at h
  | cons x rest ih =>
    intro d c h
    simp only [slide, List.mem_cons] at h
    rcases h with h | h
    · subst h; exact Nat.le_refl d
    · exact Nat.le_trans (Nat.le_add_right d x.size) (ih (d + x.size) c h)

theorem slide_chain :
    ∀ (l : List Chunk) (d : Nat),
      List.Chain' (fun a b => a.start + a.size = b.start) (slide d l) := by
  intro l
  induction l with
  | nil => intro d; simp [slide]
  | cons x rest ih =>
    intro d
    rw [slide, List.chain'_cons']
    refine ⟨?_, ih (d + x.size)⟩
    intro b hb
    cases rest with
    | nil => simp [slide] at hb
    | cons y ys =>
      simp only [slide, List.head?_cons, Option.mem_def, Option.some.injEq] at hb
      subst hb
      rfl

theorem slide_sorted :
    ∀ (l : List Chunk) (d : Nat),
      List.Pairwise (fun a b => a.start ≤ b.start) (slide d l) := by
  intro l
  induction l with
  | nil => intro d; simp [slide]
  | cons x rest ih =>
    intro d
    rw [slide, List.pairwise_cons]
    refine ⟨?_, ih (d + x.size)⟩
    intro b hb
    exact Nat.le_trans (Nat.le_add_right d x.size) (slide_mem_lb rest (d + x.size) b hb)

theorem slide_head :
    ∀ (l : List Chunk) (d : Nat),
      slide d l = [] ∨ ∃ c l2, slide d l = c :: l2 ∧ c.start = d := by
  intro l d
  cases l with
  | nil => exact Or.inl rfl
  | cons x rest => exact Or.inr ⟨{ x with start := d }, slide (d + x.size) rest, rfl, rfl⟩

/-- Heap state used for C6: one marked chunk of size 10 at address 50,
bump offset 100. -/
def c6State : HeapState :=
  { heapBase := 0, msize := 100, allocated := [⟨50, 10, true⟩], freed := [], stackTop := 0 }

/-- C6: after `heap.cpp`'s `collect` (mark, `compact`, free-list
deletion) the allocated chunks are contiguous from the arena base —
adjacent descriptors satisfy `a.start + a.size = b.start`, they are
sorted ascending by start, and the first one starts at `m_heap` — and
`m_freed_chunks` is empty; but the bump offset `m_size` is left
unchanged rather than being reset to the sum of the live sizes: in the
concrete state it stays 100 while the live chunks total 10 bytes. -/
theorem compact_tiles_but_keeps_bump :
    (∀ (f g : Nat) (st : HeapState),
        List.Chain' (fun a b => a.start + a.size = b.start) (collectV2 f g st).allocated
      ∧ List.Pairwise (fun a b => a.start ≤ b.start) (collectV2 f g st).allocated
      ∧ ((collectV2 f g st).allocated = []
          ∨ ∃ c l2, (collectV2 f g st).allocated = c :: l2 ∧ c.start = st.heapBase)
      ∧ (collectV2 f g st).freed = []
      ∧ (collectV2 f g st).msize = st.msize)
  ∧ ((collectV2 0 0 c6State).msize = 100
     ∧ (collectV2 0 0 c6State).allocated = [⟨0, 10, true⟩]
     ∧ ((collectV2 0 0 c6State).allocated.map (fun c => c.size)).sum = 10) := by
  constructor
  · intro f g st
    exact ⟨slide_chain _ _, slide_sorted _ _, slide_head _ _, rfl, rfl⟩
  · refine ⟨rfl, ?_, ?_⟩ <;>
    · simp [collectV2, compact, sortByStart, insertByStart, slide, c6State]

/-! ## Fresh bump allocation, general facts (byte-arithmetic variant)

These lemmas record that with the byte arithmetic of
`src/src/GC/heap.cpp` — the behaviour the spec prescribes — a sequence
of positive-size allocations totalling at most `HEAP_SIZE` from a fresh
heap succeeds with pairwise disjoint regions inside the arena. -/

theorem allocV2_fresh_step (f g : Nat) (st : HeapState) (size : Nat)
    (hf : st.freed = []) (h0 : size ≠ 0) (hcap : st.msize + size ≤ HEAP_SIZE) :
    (allocV2 f g st size).1
      = .ok (st.heapBase + st.msize,
          { st with msize := st.msize + size,
                    allocated := st.allocated ++ [⟨st.heapBase + st.msize, size, false⟩] }) := by
  simp only [allocV2, allocCore, h0, if_false]
  rw [if_neg (by omega)]
  simp [allocGo, hf, tryReuse]

theorem allocSeqV2_bump :
    ∀ (sizes : List Nat) (f g : Nat) (st : HeapState),
      st.freed = [] → (∀ s ∈ sizes, 0 < s) → st.msize + sizes.sum ≤ HEAP_SIZE →
      ∃ st2, allocSeq (allocV2 f g) st sizes = .ok (bumpAddrs st.heapBase st.msize sizes, st2)
        ∧ st2.heapBase = st.heapBase ∧ st2.msize = st.msize + sizes.sum ∧ st2.freed = [] := by
  intro sizes
  induction sizes with
  | nil =>
    intro f g st hf hpos hcap
    exact ⟨st, rfl, rfl, by simp, hf⟩
  | cons s rest ih =>
    intro f g st hf hpos hcap
    have hs : s ≠ 0 := by
      have := hpos s (by simp)
      omega
    have hsum : st.msize + (s + rest.sum) ≤ HEAP_SIZE := by
      simpa [List.sum_cons] using hcap
    have hstep := allocV2_fresh_step f g st s hf hs (by omega)
    obtain ⟨st2, he, hb, hm, hfr⟩ :=
      ih f g { st with msize := st.msize + s,
                       allocated := st.allocated ++ [⟨st.heapBase + st.msize, s, false⟩] }
        (by simpa using hf) (fun x hx => hpos x (by simp [hx])) (by simpa using by omega)
    refine ⟨st2, ?_, by simpa using hb, by simp at hm; simp [hm, List.sum_cons]; omega, hfr⟩
    simp only [allocSeq, hstep, he, bumpAddrs]

theorem bumpAddrs_zip_bounds :
    ∀ (sizes : List Nat) (base m : Nat) (p : Nat × Nat),
      p ∈ (bumpAddrs base m sizes).zip sizes →
      base + m ≤ p.1 ∧ p.1 + p.2 ≤ base + m + sizes.sum := by
  intro sizes
  induction sizes with
  | nil => intro base m p h; simp [bumpAddrs] at h
  | cons s rest ih =>
    intro base m p h
    simp only [bumpAddrs, List.zip_cons_cons, List.mem_cons] at h
    rcases h with h | h
    · subst h
      refine ⟨Nat.le_refl _, ?_⟩
      simp only [List.sum_cons]
      omega
    · obtain ⟨h1, h2⟩ := ih base (m + s) p h
      simp only [List.sum_cons]
      constructor <;> omega

theorem bumpAddrs_zip_pairwise :
    ∀ (sizes : List Nat) (base m : Nat),
      ((bumpAddrs base m sizes).zip sizes).Pairwise (fun p q => p.1 + p.2 ≤ q.1) := by
  intro sizes
  induction sizes with
  | nil => intro base m; simp [bumpAddrs]
  | cons s rest ih =>
    intro base m
    simp only [bumpAddrs, List.zip_cons_cons]
    refine List.Pairwise.cons ?_ (ih base (m + s))
    intro q hq
    have h := (bumpAddrs_zip_bounds rest base (m + s) q hq).1
    omega

theorem allocV2_seq_in_arena :
    ∀ (base top f g : Nat) (sizes : List Nat),
      (∀ s ∈ sizes, 0 < s) → sizes.sum ≤ HEAP_SIZE →
      ∃ st2, allocSeq (allocV2 f g) (freshState base top) sizes
          = .ok (bumpAddrs base 0 sizes, st2)
      ∧ (∀ p ∈ (bumpAddrs base 0 sizes).zip sizes, base ≤ p.1 ∧ p.1 + p.2 ≤ base + HEAP_SIZE)
      ∧ ((bumpAddrs base 0 sizes).zip sizes).Pairwise
          (fun p q => p.1 + p.2 ≤ q.1 ∨ q.1 + q.2 ≤ p.1) := by
  intro base top f g sizes hpos hsum
  obtain ⟨st2, he, _, _, _⟩ :=
    allocSeqV2_bump sizes f g (freshState base top) rfl hpos (by simpa [freshState] using hsum)
  refine ⟨st2, by simpa [freshState] using he, ?_, ?_⟩
  · intro p hp
    obtain ⟨h1, h2⟩ := bumpAddrs_zip_bounds sizes base 0 p hp
    constructor <;> omega
  · exact (bumpAddrs_zip_pairwise sizes base 0).imp (fun h => Or.inl h)
